import Mathlib

/-!
Verification development for the amie-azure pipeline backend.

The definitions below are shallow embeddings of the Python sources:
  * `backend/naa-amie-azure-clean/search_orchestrator.py`
      (`split_ucs`, `search_all_sources`, `progressive_search`)
  * `backend/naa-amie-azure-clean/prior_art_search.py` (`fetch_page`)
  * `backend/aa/retry.py` (`retry_agent`)
  * the stage-claim protocol of `backend/naa-amie-azure-clean/function_app.py`
    (`run_novelty_analysis`), `backend/idca_func/function_app.py` (`run_idca`)
    and `backend/aa/function_app.py` (`run_aa`)
  * the overflow policy of the NAA/AA persist steps and the reader
    `_get_naa_output_str`
  * the status writes of `backend/ingestion-agent/function_app.py` and
    `backend/idca_func/idca.py`.

Network calls, the table store and the blob store are modelled as explicit
parameters (a fetch oracle `String → List ReferenceRecord`, a conditional
update outcome `Except String Unit`, a blob lookup `String → String`), so
each handler becomes a pure function of its inputs and the environment's
responses.
-/

namespace AmieAzure

/-! ## ReferenceRecord

`prior_art_search.py` builds each hit as a dict with keys `id`, `doi`,
`title`, `year`, `abstract`, `url`, `source`, `metadata`.  The orchestrator
reads only `r["url"]` (the canonical id); all the remaining fields are kept
opaque in `payload` so that insertion of a record into the accumulator is
insertion of the whole unmodified value. -/
structure ReferenceRecord where
  url : String
  payload : String
deriving DecidableEq, Repr

/-! ## split_ucs (search_orchestrator.py, lines 53-85)

The Python loop scans the characters one by one, toggling `in_quotes` on
`"` and adjusting `depth` on unquoted parentheses, and breaks a block when
`ucs[i:i+4].upper() == " AND"` holds outside quotes at depth 0 (consuming
those four characters). -/

/-- `ucs[i:i+4].upper() == " AND"`: the four characters starting at the head
case-insensitively spell `" AND"` (`Char.toUpper` is the identity on
non-letters, matching Python `str.upper` on these characters). -/
def andAt (cs : List Char) : Bool :=
  match cs with
  | c0 :: c1 :: c2 :: c3 :: _ =>
      c0.toUpper == ' ' && c1.toUpper == 'A' && c2.toUpper == 'N' && c3.toUpper == 'D'
  | _ => false

/-- Python `str.strip()` on a character list: drop whitespace from both
ends. -/
def pyStrip (cs : List Char) : List Char :=
  ((cs.dropWhile Char.isWhitespace).reverse.dropWhile Char.isWhitespace).reverse

/-- `"".join(current).strip()`: the stripped pending block as a string. -/
def stripBlock (current : List Char) : String :=
  String.mk (pyStrip current)

/-- `in_quotes` after processing `ch` (the `if ch == '"'` branch). -/
def nextInq (ch : Char) (inq : Bool) : Bool :=
  if ch == '"' then !inq else inq

/-- `depth` after processing `ch` (the two `elif` branches; when they run,
`in_quotes` is unchanged, so testing the updated value is equivalent). -/
def nextDepth (ch : Char) (inq2 : Bool) (depth : Int) : Int :=
  if ch == '(' && !inq2 then depth + 1
  else if ch == ')' && !inq2 then depth - 1
  else depth

/-- The character loop of `split_ucs`: `current` is the pending block,
`depth`/`inq` the scanner state.  On a match the stripped block is emitted
and the four matched characters are consumed (`i += 4`); at the end the
pending block is emitted only if non-empty (`if current:`).  The `fuel`
argument only drives the recursion; every caller supplies at least the
length of the character list, so the `0, _ :: _` case is unreachable. -/
def splitUcsGo : Nat → List Char → List Char → Int → Bool → List String
  | _, [], current, _, _ =>
      if current.isEmpty then [] else [stripBlock current]
  | 0, _ :: _, _, _, _ => []
  | fuel + 1, ch :: rest, current, depth, inq =>
      let inq2 := nextInq ch inq
      let depth2 := nextDepth ch inq2 depth
      match rest with
      | c1 :: c2 :: c3 :: rest3 =>
          if !inq2 && depth2 == 0 && andAt (ch :: c1 :: c2 :: c3 :: rest3) then
            stripBlock current :: splitUcsGo fuel rest3 [] depth2 inq2
          else
            splitUcsGo fuel rest (current ++ [ch]) depth2 inq2
      | _ =>
          splitUcsGo fuel rest (current ++ [ch]) depth2 inq2

/-- `split_ucs`: splits a UCS query into its AND-separated top-level blocks. -/
def split_ucs (ucs : String) : List String :=
  splitUcsGo ucs.data.length ucs.data [] 0 false

/-! ## progressive_search (search_orchestrator.py, lines 88-160) -/

/-- One merge step of the accumulator: the Python loop
`for r in results: if r["url"] not in seen_ids: LoR.append(r); seen_ids.add(...)`.
Returns the updated `(seen_ids, LoR)`. -/
def addUnique (seen : List String) (acc : List ReferenceRecord) :
    List ReferenceRecord → List String × List ReferenceRecord
  | [] => (seen, acc)
  | r :: rs =>
      if r.url ∈ seen then addUnique seen acc rs
      else addUnique (r.url :: seen) (acc ++ [r]) rs

/-- `ucs.strip().strip('"')`: strip whitespace, then strip every leading and
trailing double-quote character. -/
def cleanUcs (ucs : String) : String :=
  String.mk ((((pyStrip ucs.data).dropWhile (· = '"')).reverse.dropWhile (· = '"')).reverse)

/-- The ablation loop of `progressive_search` (lines 131-158), over the list
of remaining clause indices.  `fetch` stands for `search_all_sources`.
Besides the source's `(final_query, LoR)` result the embedding also returns
the ghost trace of issued fan-out passes, each paired with the accumulator
size at the moment the pass was issued. -/
def ablationLoop (fetch : String → List ReferenceRecord) (blocks : List String)
    (target : Nat) :
    List Nat → List String → List ReferenceRecord → String →
    String × List ReferenceRecord × List (String × Nat)
  | [], _, acc, fq => (fq, acc, [])
  | i :: is, seen, acc, fq =>
      if target ≤ acc.length then (fq, acc, [])
      else
        let remaining := blocks.take i ++ blocks.drop (i + 1)
        if remaining.isEmpty then ablationLoop fetch blocks target is seen acc fq
        else
          let query := " AND ".intercalate remaining
          let p := addUnique seen acc (fetch query)
          let fq2 := if acc.length < p.2.length then query else fq
          let r := ablationLoop fetch blocks target is p.1 p.2 fq2
          (r.1, r.2.1, (query, acc.length) :: r.2.2)

/-- `progressive_search`: full-query pass, then single-clause ablation
passes until the target is reached.  Returns
`(final_query, LoR, pass trace)`; the first two components are the source's
return value, the trace is ghost instrumentation (each issued query with the
accumulator size just before the fan-out). -/
def progressive_search (fetch : String → List ReferenceRecord) (ucs0 : String)
    (target_total : Nat) :
    String × List ReferenceRecord × List (String × Nat) :=
  let ucs := cleanUcs ucs0
  let p0 := addUnique [] [] (fetch ucs)
  if target_total ≤ p0.2.length then (ucs, p0.2, [(ucs, 0)])
  else
    let blocks := split_ucs ucs
    if blocks.length ≤ 1 then (ucs, p0.2, [(ucs, 0)])
    else
      let r := ablationLoop fetch blocks target_total (List.range blocks.length)
        p0.1 p0.2 ucs
      (r.1, r.2.1, (ucs, 0) :: r.2.2)

/-! ## search_all_sources (search_orchestrator.py, lines 7-50)

The three provider coroutines are gathered with `return_exceptions=True`;
each outcome is modelled as `Except String (List ReferenceRecord)`.  Only
list outcomes are concatenated (`combined.extend(res)`); an exception
outcome is logged and contributes nothing. -/

/-- The `isinstance(res, list)` filter of the gather loop. -/
def okList : Except String (List ReferenceRecord) → List ReferenceRecord
  | .ok l => l
  | .error _ => []

/-- `search_all_sources`, as a function of the three provider outcomes
(OpenAlex, PatentsView, Semantic Scholar, in dispatch order). -/
def search_all_sources (r1 r2 r3 : Except String (List ReferenceRecord)) :
    List ReferenceRecord :=
  okList r1 ++ okList r2 ++ okList r3

/-! ## fetch_page (prior_art_search.py, lines 36-54)

One attempt of the OpenAlex page fetch either returns a 200 body, a 429
(retry after backoff), another HTTP status (give up immediately) or a
transport error (`httpx.RequestError`; give up on the last attempt). -/

inductive HttpOutcome where
  | success (body : String)
  | rateLimited
  | otherStatus (code : Nat)
  | transportError
deriving DecidableEq, Repr

def MAX_RETRIES : Nat := 5

/-- The `for attempt in range(MAX_RETRIES)` loop; `fuel` counts the
remaining loop iterations. -/
def fetchPageGo (resp : Nat → HttpOutcome) : Nat → Nat → Option String
  | _, 0 => none
  | attempt, fuel + 1 =>
      match resp attempt with
      | .success b => some b
      | .rateLimited => fetchPageGo resp (attempt + 1) fuel
      | .otherStatus _ => none
      | .transportError =>
          if attempt = MAX_RETRIES - 1 then none
          else fetchPageGo resp (attempt + 1) fuel

/-- `fetch_page`: `None` models both the explicit `return None` branches and
falling off the loop; the function never propagates an exception. -/
def fetch_page (resp : Nat → HttpOutcome) : Option String :=
  fetchPageGo resp 0 MAX_RETRIES

/-! ## retry_agent (aa/retry.py, lines 8-40)

The operation is modelled per attempt number (`op k` is what the `k`-th
call of `callable_fn` does), and the `random.uniform(0, 1)` jitter as an
oracle `j : Nat → ℚ`.  The result records the sleep durations between
attempts and the final outcome; `none` models the degenerate
`max_attempts = 0` case in which Python would `raise None`. -/

def retryGo {E A : Type} (op : Nat → Except E A) (j : Nat → ℚ) (maxAttempts : Nat) :
    Nat → Nat → List ℚ × Option (Except E A)
  | _, 0 => ([], none)
  | attempt, fuel + 1 =>
      match op attempt with
      | .ok a => ([], some (.ok a))
      | .error e =>
          if attempt < maxAttempts then
            let r := retryGo op j maxAttempts (attempt + 1) fuel
            ((2 ^ attempt + j attempt) :: r.1, r.2)
          else ([], some (.error e))

/-- `retry_agent`: attempts are numbered 1..max_attempts; after a failed
attempt `k < max_attempts` it sleeps `2 ** k + random.uniform(0, 1)`
seconds, and after the last failure it re-raises the last exception. -/
def retry_agent {E A : Type} (op : Nat → Except E A) (j : Nat → ℚ)
    (maxAttempts : Nat) : List ℚ × Option (Except E A) :=
  retryGo op j maxAttempts 1 maxAttempts

/-! ## Stage claim protocol

`run_novelty_analysis` (naa-amie-azure-clean/function_app.py, lines
171-216), `run_idca` (idca_func/function_app.py, lines 65-96) and `run_aa`
(aa/function_app.py, lines 61-97) all read the ledger record, check the
stage precondition on `status`, and issue an ETag-guarded
`update_entity(..., match_condition=IfNotModified)`.  The outcome of that
guarded read-and-update is modelled as `Except String Unit` (the error
string is `str(claim_err)`); the handler classifies the error text by
substring search. -/

/-- Python `needle in hay` prefix test helper. -/
def listIsPrefixCI : List Char → List Char → Bool
  | [], _ => true
  | _ :: _, [] => false
  | a :: as, b :: bs => a == b && listIsPrefixCI as bs

/-- Python `needle in hay` substring test on char lists. -/
def listHasSub (needle : List Char) : List Char → Bool
  | [] => needle.isEmpty
  | c :: cs => listIsPrefixCI needle (c :: cs) || listHasSub needle cs

/-- Python `needle in hay` on strings. -/
def strContains (hay needle : String) : Bool :=
  listHasSub needle.data hay.data

/-- `"ConditionNotMet" in str(err) or "UpdateConditionNotSatisfied" in str(err)`. -/
def isVersionConflictMsg (msg : String) : Bool :=
  strContains msg "ConditionNotMet" || strContains msg "UpdateConditionNotSatisfied"

/-- Python `str.lower()`. -/
def statusLower (s : String) : String :=
  String.mk (s.data.map Char.toLower)

/-- Outcome of the claim phase: either an early HTTP response (no stage
logic runs) or control proceeds into the stage logic; `writes` are the
ledger field writes the claim performed. -/
inductive ClaimResult where
  | respond (http : Nat) (writes : List (String × String))
  | proceed (writes : List (String × String))
deriving DecidableEq, Repr

/-- The claim phase of `run_novelty_analysis`: requires `status ==
"classified"` (after `.lower()`); a version conflict is a 200 no-op, any
other claim error is a 500. -/
def run_novelty_claim (now status : String) (upd : Except String Unit) : ClaimResult :=
  if statusLower status ≠ "classified" then .respond 200 []
  else
    match upd with
    | .ok _ => .proceed [("status", "analyzing"), ("naa_started_at", now)]
    | .error m =>
        if isVersionConflictMsg m then .respond 200 []
        else .respond 500 []

/-- The claim phase of `run_idca` (idca_func): skips when the status is
already at or past classification; a version conflict is a 200 no-op, but
any other claim error is logged and the handler *proceeds* to run the IDCA
logic anyway ("Proceeding anyway as fallback if it's just a read error"). -/
def run_idca_claim (now status : String) (upd : Except String Unit) : ClaimResult :=
  if ["classifying", "classified", "completed", "failed"].contains (statusLower status) then
    .respond 200 []
  else
    match upd with
    | .ok _ => .proceed [("status", "classifying"), ("classifying_started_at", now)]
    | .error m =>
        if isVersionConflictMsg m then .respond 200 []
        else .proceed []

/-- The claim phase of `run_aa`: requires `status == "assessed"`; the claim
writes only `aa_started_at` (no status change); a version conflict is a 200
no-op, but any other claim error is logged and the handler re-reads the
record and *proceeds* ("Proceed anyway if it's just a read error"). -/
def run_aa_claim (now status : String) (upd : Except String Unit) : ClaimResult :=
  if statusLower status ≠ "assessed" then .respond 200 []
  else
    match upd with
    | .ok _ => .proceed [("aa_started_at", now)]
    | .error m =>
        if isVersionConflictMsg m then .respond 200 []
        else .proceed []

/-! ## Overflow policy (ledger vs blob)

NAA persist: naa-amie-azure-clean/function_app.py lines 288-311.
AA persist: aa/function_app.py lines 142-159.
Reader: aa/function_app.py `_get_naa_output_str`, lines 32-41. -/

structure BlobWrite where
  key : String
  content : String
deriving DecidableEq, Repr

/-- The NAA patch written to the ledger (merge update). -/
structure NaaPatch where
  status : String
  naa_output : Option String
  naa_output_blob : Option String
deriving DecidableEq, Repr

/-- `max_table_chars = 32 * 1024 - 256` (Azure 32K char limit minus margin). -/
def max_table_chars : Nat := 32 * 1024 - 256

/-- Step 5 of `run_novelty_analysis`: inline if
`len(naa_output_str) <= max_table_chars`, else upload to the blob
`naa-outputs/{request_id}.json` and store only that path. -/
def naa_persist (request_id naa_output_str : String) : NaaPatch × List BlobWrite :=
  if max_table_chars < naa_output_str.length then
    let blob_path := "naa-outputs/" ++ request_id ++ ".json"
    (⟨"assessed", none, some blob_path⟩, [⟨blob_path, naa_output_str⟩])
  else
    (⟨"assessed", some naa_output_str, none⟩, [])

/-- The AA output fields of the entity after `run_aa` stores the report. -/
structure AaPatch where
  aa_output : Option String
  aa_output_blob : Option String
deriving DecidableEq, Repr

/-- `len(final_report.encode("utf-8"))`: the UTF-8 byte length of a string,
as the sum of the UTF-8 sizes of its characters. -/
def utf8LenList : List Char → Nat
  | [] => 0
  | c :: cs => c.utf8Size + utf8LenList cs

/-- UTF-8 byte length of a string. -/
def utf8Len (s : String) : Nat := utf8LenList s.data

/-- `run_aa` report storage: `len(final_report.encode("utf-8")) > 32 * 1024`
sends the report to the blob `aa-outputs/{request_id}.md` (and pops the
inline field), otherwise stores it inline (and pops the blob field). -/
def aa_persist (request_id final_report : String) : AaPatch × List BlobWrite :=
  if 32 * 1024 < utf8Len final_report then
    let blob_path := "aa-outputs/" ++ request_id ++ ".md"
    (⟨none, some blob_path⟩, [⟨blob_path, final_report⟩])
  else
    (⟨some final_report, none⟩, [])

/-- `_get_naa_output_str`: resolve the NAA output from the blob if
`naa_output_blob` is set, else from the inline field
(`entity.get("naa_output", "{}") or "{}"` — a missing or empty inline field
yields `"{}"`). -/
def get_naa_output_str (naa_output naa_output_blob : Option String)
    (blobGet : String → String) : String :=
  match naa_output_blob with
  | some p => blobGet p
  | none =>
      match naa_output with
      | some s => if s.isEmpty then "{}" else s
      | none => "{}"

/-! ## Status writes (pipeline state machine)

Sources: ingestion-agent/function_app.py (`upload`, `delete_request`,
`retry_request`), idca_func/idca.py (`run_idca` status updates),
naa-amie-azure-clean/function_app.py (`start_assessment`,
`run_novelty_analysis`), aa/function_app.py (`run_aa`). -/

/-- The closed status set of the spec's state machine (§4.2). -/
def allowed_statuses : List String :=
  ["uploaded", "queued", "classifying", "classified", "analyzing", "assessed",
   "completed", "failed", "deleted"]

/-- `upload`: creates the record at `uploaded`, then `queued` on successful
enqueue or `enqueue_failed` when enqueueing the IDCA job raised. -/
def upload_status_writes (enqueueOk : Bool) : List String :=
  ["uploaded"] ++ (if enqueueOk then ["queued"] else ["enqueue_failed"])

/-- `delete_request`: soft tombstone. -/
def delete_request_status_writes : List String := ["deleted"]

/-- `retry_request`: unconditionally sets `retrying`, whatever the previous
status was. -/
def retry_request_status_writes : List String := ["retrying"]

/-- `start_assessment` (POST /assess): writes `analyzing` only when the
record is at `classified` (else 400, no write). -/
def start_assessment_status_writes (status : String) : List String :=
  if status = "classified" then ["analyzing"] else []

/-- `run_idca` in idca_func/idca.py: sets `classifying` before the agent,
`classified` after, and `completed` directly when no invention is found. -/
def idca_run_status_writes (noInvention : Bool) : List String :=
  ["classifying", "classified"] ++ (if noInvention then ["completed"] else [])

/-- Status values a `ClaimResult`'s writes contain. -/
def statusWritesOf : ClaimResult → List String
  | .respond _ ws => ws.filterMap (fun w => if w.1 = "status" then some w.2 else none)
  | .proceed ws => ws.filterMap (fun w => if w.1 = "status" then some w.2 else none)

/-- Statuses written by one `run_novelty_analysis` invocation: the claim
write, then `assessed` on success (twice when the AA trigger fails and the
`aa_error` merge repeats it) or `failed` when the pipeline raises. -/
def naa_run_status_writes (status : String) (upd : Except String Unit)
    (stageOk aaOk : Bool) : List String :=
  let claim := run_novelty_claim "t" status upd
  statusWritesOf claim ++
    (match claim with
     | .proceed _ =>
         if stageOk then (if aaOk then ["assessed"] else ["assessed", "assessed"])
         else ["failed"]
     | .respond _ _ => [])

/-- Statuses written by one `run_aa` invocation: `completed` once the stage
logic succeeds (the claim itself writes no status). -/
def aa_run_status_writes (status : String) (upd : Except String Unit)
    (stageOk : Bool) : List String :=
  let claim := run_aa_claim "t" status upd
  statusWritesOf claim ++
    (match claim with
     | .proceed _ => if stageOk then ["completed"] else []
     | .respond _ _ => [])

/-- The status vocabulary actually written by the code: the spec's closed
set plus `enqueue_failed` (upload) and `retrying` (retry endpoint). -/
def extended_statuses : List String :=
  allowed_statuses ++ ["enqueue_failed", "retrying"]

/-! ## Auxiliary predicates and fixtures used by the theorems -/

/-- Some suffix of the character list starts with the (case-insensitive)
4-character `" AND"` window that `split_ucs` breaks on. -/
def hasAndToken : List Char → Bool
  | [] => false
  | c :: cs => andAt (c :: cs) || hasAndToken cs

/-- A provider environment in which every fan-out returns nothing. -/
def emptyFetch : String → List ReferenceRecord := fun _ => []

/-- A provider environment returning one record for the full witness query
and nothing for any broadened query. -/
def oneHitFetch : String → List ReferenceRecord := fun q =>
  if q = "a AND b" then [⟨"u1", "p1"⟩] else []

/-- A 32 KiB (32768-byte) ASCII report. -/
def aa_report_32k : String := String.mk (List.replicate (32 * 1024) 'a')

/-- Witness operation for the retry executor: fails twice, succeeds on the
third attempt. -/
def wOp : Nat → Except Nat String := fun k =>
  if k = 3 then .ok "done" else .error k

/-- Witness jitter oracle. -/
def wJitter : Nat → ℚ := fun _ => 1 / 2

/-- Witness operation for the retry executor that fails on every attempt
with the attempt number as the error. -/
def wOpFail : Nat → Except Nat String := fun k => .error k

/-- A 32 KiB ASCII NAA output (strictly above `max_table_chars`). -/
def naa_big : String := String.mk (List.replicate (32 * 1024) 'b')

/-! # Theorems -/

/-! ## Scanner lemmas for `split_ucs` -/

theorem splitUcsGo_nil (f : Nat) (current : List Char) (depth : Int) (inq : Bool) :
    splitUcsGo f [] current depth inq =
      if current.isEmpty then [] else [stripBlock current] := by
  cases f <;> rfl

theorem splitUcsGo_cons_split (f : Nat) (ch c1 c2 c3 : Char) (rest3 current : List Char)
    (depth : Int) (inq : Bool)
    (h : (!(nextInq ch inq) && (nextDepth ch (nextInq ch inq) depth == 0)
          && andAt (ch :: c1 :: c2 :: c3 :: rest3)) = true) :
    splitUcsGo (f + 1) (ch :: c1 :: c2 :: c3 :: rest3) current depth inq =
      stripBlock current ::
        splitUcsGo f rest3 [] (nextDepth ch (nextInq ch inq) depth) (nextInq ch inq) := by
  simp only [splitUcsGo]
  rw [if_pos h]

theorem splitUcsGo_cons_noSplit (f : Nat) (ch : Char) (rest current : List Char)
    (depth : Int) (inq : Bool)
    (h : (!(nextInq ch inq) && (nextDepth ch (nextInq ch inq) depth == 0)
          && andAt (ch :: rest)) = false) :
    splitUcsGo (f + 1) (ch :: rest) current depth inq =
      splitUcsGo f rest (current ++ [ch]) (nextDepth ch (nextInq ch inq) depth)
        (nextInq ch inq) := by
  match rest with
  | [] => simp only [splitUcsGo]
  | [c1] => simp only [splitUcsGo]
  | [c1, c2] => simp only [splitUcsGo]
  | c1 :: c2 :: c3 :: rest3 =>
      simp only [splitUcsGo]
      rw [if_neg (by simp [h])]

theorem hasAndToken_cons_false {ch : Char} {rest : List Char}
    (h : hasAndToken (ch :: rest) = false) :
    andAt (ch :: rest) = false ∧ hasAndToken rest = false := by
  simpa [hasAndToken] using h

/-- Scanning a token-free character list accumulates everything into a
single (possibly empty) block, whatever the scanner state. -/
theorem splitUcsGo_noToken (f : Nat) :
    ∀ (cs current : List Char) (depth : Int) (inq : Bool),
      cs.length ≤ f → hasAndToken cs = false →
      splitUcsGo f cs current depth inq =
        if (current ++ cs).isEmpty then [] else [stripBlock (current ++ cs)] := by
  induction f with
  | zero =>
      intro cs current depth inq hlen _
      have hcs : cs = [] := by
        cases cs with
        | nil => rfl
        | cons a as => simp at hlen
      subst hcs
      rw [splitUcsGo_nil]
      simp
  | succ f ih =>
      intro cs current depth inq hlen htok
      cases cs with
      | nil =>
          rw [splitUcsGo_nil]
          simp
      | cons ch rest =>
          obtain ⟨hand, htok'⟩ := hasAndToken_cons_false htok
          rw [splitUcsGo_cons_noSplit f ch rest current depth inq (by simp [hand])]
          rw [ih rest (current ++ [ch]) _ _ (by simpa using hlen) htok']
          simp

/-- Inside a double-quoted region, the scanner never splits: everything up
to and including the closing quote lands in the pending block. -/
theorem splitUcsGo_quoted (f : Nat) :
    ∀ (cs current : List Char) (depth : Int),
      (cs ++ ['"']).length ≤ f → '"' ∉ cs →
      splitUcsGo f (cs ++ ['"']) current depth true =
        [stripBlock (current ++ cs ++ ['"'])] := by
  induction f with
  | zero =>
      intro cs current depth hlen _
      simp at hlen
  | succ f ih =>
      intro cs current depth hlen hq
      cases cs with
      | nil =>
          have hcond : (!(nextInq '"' true) && (nextDepth '"' (nextInq '"' true) depth == 0)
              && andAt ('"' :: [])) = false := by
            simp [andAt]
          rw [List.nil_append, show ('"' :: ([] : List Char)) = '"' :: [] from rfl]
          rw [splitUcsGo_cons_noSplit f '"' [] current depth true hcond]
          rw [splitUcsGo_nil]
          simp
      | cons c rest =>
          have hc : c ≠ '"' := fun h => hq (h ▸ List.mem_cons_self c rest)
          have hinq : nextInq c true = true := by
            simp [nextInq, hc]
          have hcond : (!(nextInq c true) && (nextDepth c (nextInq c true) depth == 0)
              && andAt (c :: (rest ++ ['"']))) = false := by
            simp [hinq]
          rw [List.cons_append]
          rw [splitUcsGo_cons_noSplit f c (rest ++ ['"']) current depth true hcond]
          rw [hinq, ih rest (current ++ [c]) _ (by simpa using hlen)
            (fun h => hq (List.mem_cons_of_mem c h))]
          simp

/-- Inside an unclosed parenthesis (depth ≠ 0), the scanner never splits on
clean characters; the closing parenthesis itself cannot start a split. -/
theorem splitUcsGo_parens (f : Nat) :
    ∀ (cs current : List Char) (depth : Int),
      (cs ++ [')']).length ≤ f → depth ≠ 0 →
      (∀ c ∈ cs, c ≠ '"' ∧ c ≠ '(' ∧ c ≠ ')') →
      splitUcsGo f (cs ++ [')']) current depth false =
        [stripBlock (current ++ cs ++ [')'])] := by
  induction f with
  | zero =>
      intro cs current depth hlen _ _
      simp at hlen
  | succ f ih =>
      intro cs current depth hlen hd hclean
      cases cs with
      | nil =>
          have hcond : (!(nextInq ')' false) && (nextDepth ')' (nextInq ')' false) depth == 0)
              && andAt (')' :: [])) = false := by
            simp [andAt]
          rw [List.nil_append]
          rw [splitUcsGo_cons_noSplit f ')' [] current depth false hcond]
          rw [splitUcsGo_nil]
          simp
      | cons c rest =>
          obtain ⟨hcq, hcl, hcr⟩ := hclean c (List.mem_cons_self c rest)
          have hinq : nextInq c false = false := by
            simp [nextInq, hcq]
          have hdep : nextDepth c false depth = depth := by
            simp [nextDepth, hcl, hcr]
          have hcond : (!(nextInq c false) && (nextDepth c (nextInq c false) depth == 0)
              && andAt (c :: (rest ++ [')']))) = false := by
            simp [hinq, hdep, hd]
          rw [List.cons_append]
          rw [splitUcsGo_cons_noSplit f c (rest ++ [')']) current depth false hcond]
          rw [hinq, hdep, ih rest (current ++ [c]) _ (by simpa using hlen) hd
            (fun x hx => hclean x (List.mem_cons_of_mem c hx))]
          simp

theorem andAt_append_of_length (l x : List Char) (h : 4 ≤ l.length) :
    andAt (l ++ x) = andAt l := by
  match l with
  | [] => simp at h
  | [a] => simp at h
  | [a, b] => simp at h
  | [a, b, c] => simp at h
  | a :: b :: c :: d :: r => simp [andAt]

theorem andAt_false_snd (c x y : Char) (r : List Char) :
    andAt (c :: ' ' :: x :: y :: r) = false := by
  have h : (' '.toUpper == 'A') = false := rfl
  simp [andAt, h]

theorem andAt_false_thd (c a y : Char) (r : List Char) :
    andAt (c :: a :: ' ' :: y :: r) = false := by
  have h : (' '.toUpper == 'N') = false := rfl
  simp [andAt, h]

theorem andAt_false_fth (c a b : Char) (r : List Char) :
    andAt (c :: a :: b :: ' ' :: r) = false := by
  have h : (' '.toUpper == 'D') = false := rfl
  simp [andAt, h]

/-- Scanning clean, token-free text followed by a top-level `" AND "` splits
exactly there: the pending text becomes one block and the remainder (which
contains no further token) the next. -/
theorem splitUcsGo_splitsAt (t : List Char) (htok : hasAndToken (' ' :: t) = false) (f : Nat) :
    ∀ (cs current : List Char),
      (∀ c ∈ cs, c ≠ '"' ∧ c ≠ '(' ∧ c ≠ ')') → hasAndToken cs = false →
      (cs ++ (' ' :: 'A' :: 'N' :: 'D' :: ' ' :: t)).length ≤ f →
      splitUcsGo f (cs ++ (' ' :: 'A' :: 'N' :: 'D' :: ' ' :: t)) current 0 false =
        [stripBlock (current ++ cs), stripBlock (' ' :: t)] := by
  induction f with
  | zero =>
      intro cs current _ _ hlen
      simp at hlen
  | succ f ih =>
      intro cs current hclean htokcs hlen
      cases cs with
      | nil =>
          rw [List.nil_append]
          have hcond : (!(nextInq ' ' false) && (nextDepth ' ' (nextInq ' ' false) 0 == 0)
              && andAt (' ' :: 'A' :: 'N' :: 'D' :: ' ' :: t)) = true := rfl
          rw [splitUcsGo_cons_split f ' ' 'A' 'N' 'D' (' ' :: t) current 0 false hcond]
          rw [show nextDepth ' ' (nextInq ' ' false) 0 = 0 from rfl,
            show nextInq ' ' false = false from rfl]
          rw [splitUcsGo_noToken f (' ' :: t) [] 0 false (by simp at hlen ⊢; omega) htok]
          simp
      | cons c cs' =>
          obtain ⟨hcq, hcl, hcr⟩ := hclean c (List.mem_cons_self c cs')
          obtain ⟨handcs, htokcs'⟩ := hasAndToken_cons_false htokcs
          have hinq : nextInq c false = false := by simp [nextInq, hcq]
          have hdep : nextDepth c false 0 = 0 := by simp [nextDepth, hcl, hcr]
          have handfull : andAt (c :: (cs' ++ (' ' :: 'A' :: 'N' :: 'D' :: ' ' :: t))) = false := by
            match cs' with
            | [] => exact andAt_false_snd c 'A' 'N' _
            | [a] => exact andAt_false_thd c a 'A' _
            | [a, b] => exact andAt_false_fth c a b _
            | a :: b :: d :: cs3 =>
                rw [show (c :: ((a :: b :: d :: cs3) ++ (' ' :: 'A' :: 'N' :: 'D' :: ' ' :: t)))
                    = (c :: a :: b :: d :: cs3) ++ (' ' :: 'A' :: 'N' :: 'D' :: ' ' :: t) from rfl]
                rw [andAt_append_of_length _ _ (by simp)]
                exact handcs
          have hcond : (!(nextInq c false) && (nextDepth c (nextInq c false) 0 == 0)
              && andAt (c :: (cs' ++ (' ' :: 'A' :: 'N' :: 'D' :: ' ' :: t)))) = false := by
            rw [handfull]
            simp
          rw [List.cons_append]
          rw [splitUcsGo_cons_noSplit f c _ current 0 false hcond]
          rw [hinq, hdep]
          rw [ih cs' (current ++ [c])
            (fun x hx => hclean x (List.mem_cons_of_mem c hx)) htokcs'
            (by simpa using hlen)]
          simp

/-- Stripping a block whose first and last characters are not whitespace is
the identity. -/
theorem stripBlock_of_ends (a b : Char) (xs : List Char)
    (ha : a.isWhitespace = false) (hb : b.isWhitespace = false) :
    stripBlock (a :: (xs ++ [b])) = String.mk (a :: (xs ++ [b])) := by
  unfold stripBlock pyStrip
  rw [List.dropWhile_cons]
  simp only [ha, Bool.false_eq_true, if_false]
  rw [show (a :: (xs ++ [b])).reverse = b :: (a :: xs).reverse by simp]
  rw [List.dropWhile_cons]
  simp only [hb, Bool.false_eq_true, if_false]
  simp

/-! ## Claim C2 -/

/-- C2 (corrected): `split_ucs` never splits inside a quoted phrase or
inside parentheses, and token-free text is never split; at top level it
splits exactly at the case-insensitive 4-character window `" AND"`
(no trailing separator is required — see the counterexample). -/
theorem C2_split_ucs_boundaries :
    (∀ s : String, '"' ∉ s.data →
        split_ucs (String.mk ('"' :: (s.data ++ ['"']))) =
          [String.mk ('"' :: (s.data ++ ['"']))])
  ∧ (∀ s : String, (∀ c ∈ s.data, c ≠ '"' ∧ c ≠ '(' ∧ c ≠ ')') →
        split_ucs (String.mk ('(' :: (s.data ++ [')']))) =
          [String.mk ('(' :: (s.data ++ [')']))])
  ∧ (∀ s : String, hasAndToken s.data = false → s.data ≠ [] →
        split_ucs s = [stripBlock s.data])
  ∧ (∀ s t : String, (∀ c ∈ s.data, c ≠ '"' ∧ c ≠ '(' ∧ c ≠ ')') →
        hasAndToken s.data = false → hasAndToken (' ' :: t.data) = false →
        split_ucs (String.mk (s.data ++ (' ' :: 'A' :: 'N' :: 'D' :: ' ' :: t.data))) =
          [stripBlock s.data, stripBlock (' ' :: t.data)]) := by
  refine ⟨?_, ?_, ?_, ?_⟩
  · intro s hq
    show splitUcsGo ('"' :: (s.data ++ ['"'])).length ('"' :: (s.data ++ ['"'])) [] 0 false = _
    have hcond : (!(nextInq '"' false) && (nextDepth '"' (nextInq '"' false) 0 == 0)
        && andAt ('"' :: (s.data ++ ['"']))) = false := by
      have h1 : nextInq '"' false = true := rfl
      rw [h1]
      simp
    rw [show ('"' :: (s.data ++ ['"'])).length = (s.data ++ ['"']).length + 1 from rfl]
    rw [splitUcsGo_cons_noSplit _ '"' _ [] 0 false hcond]
    rw [show nextInq '"' false = true from rfl,
      show nextDepth '"' true 0 = 0 from rfl]
    simp only [List.nil_append]
    rw [splitUcsGo_quoted ((s.data ++ ['"']).length) s.data ['"'] 0 le_rfl hq]
    rw [show (['"'] ++ s.data ++ ['"']) = '"' :: (s.data ++ ['"']) by simp]
    rw [stripBlock_of_ends '"' '"' s.data rfl rfl]
  · intro s hclean
    show splitUcsGo ('(' :: (s.data ++ [')'])).length ('(' :: (s.data ++ [')'])) [] 0 false = _
    have hcond : (!(nextInq '(' false) && (nextDepth '(' (nextInq '(' false) 0 == 0)
        && andAt ('(' :: (s.data ++ [')']))) = false := by
      have h1 : nextInq '(' false = false := rfl
      have h2 : nextDepth '(' false 0 = 1 := rfl
      rw [h1, h2]
      simp
    rw [show ('(' :: (s.data ++ [')'])).length = (s.data ++ [')']).length + 1 from rfl]
    rw [splitUcsGo_cons_noSplit _ '(' _ [] 0 false hcond]
    rw [show nextInq '(' false = false from rfl,
      show nextDepth '(' false 0 = 1 from rfl]
    simp only [List.nil_append]
    rw [splitUcsGo_parens ((s.data ++ [')']).length) s.data ['('] 1 le_rfl (by decide) hclean]
    rw [show (['('] ++ s.data ++ [')']) = '(' :: (s.data ++ [')']) by simp]
    rw [stripBlock_of_ends '(' ')' s.data rfl rfl]
  · intro s htok hne
    show splitUcsGo s.data.length s.data [] 0 false = _
    rw [splitUcsGo_noToken _ s.data [] 0 false le_rfl htok]
    simp [hne]
  · intro s t hclean htoks htokt
    show splitUcsGo (s.data ++ (' ' :: 'A' :: 'N' :: 'D' :: ' ' :: t.data)).length
      (s.data ++ (' ' :: 'A' :: 'N' :: 'D' :: ' ' :: t.data)) [] 0 false = _
    rw [splitUcsGo_splitsAt t.data htokt _ s.data [] hclean htoks le_rfl]
    simp

/-- C2 witness: the general boundary theorem applied at concrete queries —
a fully quoted clause containing ` AND ` stays one clause, a parenthesised
clause containing ` AND ` stays one clause, token-free text is one clause,
and a clean top-level ` AND ` splits into exactly two clauses. -/
theorem C2_split_ucs_boundaries_witness :
    split_ucs "\"x AND y\"" = ["\"x AND y\""]
  ∧ split_ucs "(x AND y)" = ["(x AND y)"]
  ∧ split_ucs "gait analysis" = ["gait analysis"]
  ∧ split_ucs "sensor AND gait" = ["sensor", "gait"] := by
  refine ⟨?_, ?_, ?_, ?_⟩
  · have h := C2_split_ucs_boundaries.1 "x AND y" (by decide)
    simpa using h
  · have h := C2_split_ucs_boundaries.2.1 "x AND y" (by decide)
    simpa using h
  · have h := C2_split_ucs_boundaries.2.2.1 "gait analysis" (by decide) (by decide)
    simpa using h
  · have h := C2_split_ucs_boundaries.2.2.2 "sensor" "gait" (by decide) (by decide) (by decide)
    simpa using h

/-- C2 counterexample: the claim as stated — splits occur only at
occurrences of the five-character `" AND "` — is false: `split_ucs` splits
`"a ANDb"` (which contains no `" AND "` substring) into two clauses, and it
also splits at lowercase `" and "`. -/
theorem C2_split_ucs_cex :
    split_ucs "a ANDb" = ["a", "b"]
  ∧ strContains "a ANDb" " AND " = false
  ∧ split_ucs "x and y" = ["x", "y"]
  ∧ strContains "x and y" " AND " = false := by decide

/-! ## Accumulator lemmas -/

theorem addUnique_extends (rs : List ReferenceRecord) :
    ∀ (seen : List String) (acc : List ReferenceRecord),
      acc <+: (addUnique seen acc rs).2 := by
  induction rs with
  | nil => intro seen acc; exact List.prefix_rfl
  | cons r rs ih =>
      intro seen acc
      simp only [addUnique]
      by_cases h : r.url ∈ seen
      · simpa [h] using ih seen acc
      · simp only [h, if_false]
        exact (List.prefix_append acc [r]).trans (ih _ _)

theorem addUnique_length_le (seen : List String) (acc rs : List ReferenceRecord) :
    acc.length ≤ (addUnique seen acc rs).2.length :=
  (addUnique_extends rs seen acc).length_le

theorem addUnique_inv (rs : List ReferenceRecord) :
    ∀ (seen : List String) (acc : List ReferenceRecord),
      (acc.map ReferenceRecord.url).Nodup →
      (∀ u ∈ acc.map ReferenceRecord.url, u ∈ seen) →
      ((addUnique seen acc rs).2.map ReferenceRecord.url).Nodup ∧
        (∀ u ∈ (addUnique seen acc rs).2.map ReferenceRecord.url,
          u ∈ (addUnique seen acc rs).1) := by
  induction rs with
  | nil => intro seen acc h1 h2; exact ⟨h1, h2⟩
  | cons r rs ih =>
      intro seen acc h1 h2
      simp only [addUnique]
      by_cases h : r.url ∈ seen
      · simpa [h] using ih seen acc h1 h2
      · simp only [h, if_false]
        refine ih (r.url :: seen) (acc ++ [r]) ?_ ?_
        · rw [List.map_append]
          refine List.nodup_append.mpr ⟨h1, List.nodup_singleton _, ?_⟩
          intro a ha hb
          simp only [List.map_cons, List.map_nil, List.mem_singleton] at hb
          exact h (hb ▸ h2 a ha)
        · intro u hu
          rw [List.map_append] at hu
          rcases List.mem_append.mp hu with hmem | hmem
          · exact List.mem_cons_of_mem _ (h2 u hmem)
          · simp only [List.map_cons, List.map_nil, List.mem_singleton] at hmem
            exact hmem ▸ List.mem_cons_self _ _

/-! ## Ablation-loop lemmas -/

theorem ablationLoop_extends (fetch : String → List ReferenceRecord)
    (blocks : List String) (target : Nat) (is : List Nat) :
    ∀ (seen : List String) (acc : List ReferenceRecord) (fq : String),
      acc <+: (ablationLoop fetch blocks target is seen acc fq).2.1 := by
  induction is with
  | nil => intro seen acc fq; exact List.prefix_rfl
  | cons i is ih =>
      intro seen acc fq
      simp only [ablationLoop]
      split
      · exact List.prefix_rfl
      · split
        · exact ih _ _ _
        · exact (addUnique_extends _ _ _).trans (ih _ _ _)

theorem ablationLoop_nodup (fetch : String → List ReferenceRecord)
    (blocks : List String) (target : Nat) (is : List Nat) :
    ∀ (seen : List String) (acc : List ReferenceRecord) (fq : String),
      (acc.map ReferenceRecord.url).Nodup →
      (∀ u ∈ acc.map ReferenceRecord.url, u ∈ seen) →
      ((ablationLoop fetch blocks target is seen acc fq).2.1.map ReferenceRecord.url).Nodup := by
  induction is with
  | nil => intro seen acc fq h1 _; exact h1
  | cons i is ih =>
      intro seen acc fq h1 h2
      simp only [ablationLoop]
      split
      · exact h1
      · split
        · exact ih _ _ _ h1 h2
        · obtain ⟨h1', h2'⟩ := addUnique_inv (fetch _) seen acc h1 h2
          exact ih _ _ _ h1' h2'

theorem ablationLoop_trace_length (fetch : String → List ReferenceRecord)
    (blocks : List String) (target : Nat) (is : List Nat) :
    ∀ (seen : List String) (acc : List ReferenceRecord) (fq : String),
      (ablationLoop fetch blocks target is seen acc fq).2.2.length ≤ is.length := by
  induction is with
  | nil => intro seen acc fq; simp [ablationLoop]
  | cons i is ih =>
      intro seen acc fq
      simp only [ablationLoop]
      split
      · simp
      · split
        · exact (ih _ _ _).trans (by simp)
        · simpa using Nat.succ_le_succ (ih _ _ _)

theorem ablationLoop_trace_mem (fetch : String → List ReferenceRecord)
    (blocks : List String) (target : Nat) (is : List Nat) :
    ∀ (seen : List String) (acc : List ReferenceRecord) (fq : String),
      (∀ i ∈ is, i < blocks.length) →
      ∀ q c, (q, c) ∈ (ablationLoop fetch blocks target is seen acc fq).2.2 →
        c < target ∧ ∃ i, i < blocks.length ∧
          q = " AND ".intercalate (blocks.take i ++ blocks.drop (i + 1)) := by
  induction is with
  | nil => intro seen acc fq _ q c h; simp [ablationLoop] at h
  | cons i is ih =>
      intro seen acc fq hbound q c hmem
      simp only [ablationLoop] at hmem
      split at hmem
      · simp at hmem
      · rename_i hlt
        split at hmem
        · exact ih _ _ _ (fun x hx => hbound x (List.mem_cons_of_mem i hx)) q c hmem
        · simp only [List.mem_cons] at hmem
          rcases hmem with heq | hmem
          · have h1 : q = " AND ".intercalate (blocks.take i ++ blocks.drop (i + 1)) :=
              congrArg Prod.fst heq
            have h2 : c = acc.length := congrArg Prod.snd heq
            refine ⟨h2 ▸ Nat.lt_of_not_le hlt, i, hbound i (List.mem_cons_self i is), h1⟩
          · exact ih _ _ _ (fun x hx => hbound x (List.mem_cons_of_mem i hx)) q c hmem

theorem ablationLoop_final_query_stable (fetch : String → List ReferenceRecord)
    (blocks : List String) (target : Nat) (is : List Nat) :
    ∀ (seen : List String) (acc : List ReferenceRecord) (fq : String),
      (ablationLoop fetch blocks target is seen acc fq).2.1.length = acc.length →
      (ablationLoop fetch blocks target is seen acc fq).1 = fq := by
  induction is with
  | nil => intro seen acc fq _; rfl
  | cons i is ih =>
      intro seen acc fq hlen
      simp only [ablationLoop] at hlen ⊢
      set query := " AND ".intercalate (blocks.take i ++ blocks.drop (i + 1)) with hquery
      set p := addUnique seen acc (fetch query) with hp
      split at hlen
      · rename_i h
        rw [if_pos h]
      · rename_i h
        rw [if_neg h]
        split at hlen
        · rename_i hemp
          rw [if_pos hemp]
          exact ih _ _ _ hlen
        · rename_i hemp
          rw [if_neg hemp]
          dsimp only at hlen ⊢
          have h1 : acc.length ≤ p.2.length := hp ▸ addUnique_length_le _ _ _
          have hple := List.IsPrefix.length_le (ablationLoop_extends fetch blocks target is
            p.1 p.2 (if acc.length < p.2.length then query else fq))
          have hnotlt : ¬ acc.length < p.2.length := by omega
          rw [if_neg hnotlt] at hlen hple ⊢
          exact ih _ _ _ (by omega)

theorem ablationLoop_emptyFetch (blocks : List String) (target : Nat) (is : List Nat) :
    ∀ (seen : List String) (acc : List ReferenceRecord) (fq : String),
      (ablationLoop emptyFetch blocks target is seen acc fq).1 = fq ∧
      (ablationLoop emptyFetch blocks target is seen acc fq).2.1 = acc := by
  induction is with
  | nil => intro seen acc fq; exact ⟨rfl, rfl⟩
  | cons i is ih =>
      intro seen acc fq
      simp only [ablationLoop, emptyFetch, addUnique]
      split
      · exact ⟨rfl, rfl⟩
      · split
        · exact ih _ _ _
        · simpa using ih _ _ _

/-! ## Claim C3 -/

/-- C3: across the full-query pass and all ablation passes the accumulated
record list never contains two records with the same canonical id
(`r["url"]`), and each pass only appends to the accumulator — previously
accumulated records are never mutated, removed or reordered (the old
accumulator is always a prefix of the new one). -/
theorem C3_progressive_search_dedup (fetch : String → List ReferenceRecord)
    (ucs : String) (T : Nat) :
    ((progressive_search fetch ucs T).2.1.map ReferenceRecord.url).Nodup
  ∧ (∀ (blocks : List String) (target : Nat) (is : List Nat) (seen : List String)
      (acc : List ReferenceRecord) (fq : String),
        acc <+: (ablationLoop fetch blocks target is seen acc fq).2.1)
  ∧ (∀ (seen : List String) (acc rs : List ReferenceRecord),
        acc <+: (addUnique seen acc rs).2) := by
  refine ⟨?_, fun blocks target is seen acc fq => ablationLoop_extends fetch blocks target is seen acc fq,
    fun seen acc rs => addUnique_extends rs seen acc⟩
  have hbase := addUnique_inv (fetch (cleanUcs ucs)) [] [] (by simp) (by simp)
  simp only [progressive_search]
  split
  · exact hbase.1
  · split
    · exact hbase.1
    · exact ablationLoop_nodup fetch _ T _ _ _ _ hbase.1 hbase.2

/-! ## Claim C1 -/

/-- C1: the orchestrator issues at most `n + 1` fan-out passes where `n` is
the number of top-level clauses of the (cleaned) query — the first pass is
the full query, and every later pass was issued while the accumulator was
still below the target `T` and uses the query obtained by removing exactly
one clause `i` and re-joining the rest with `" AND "`. -/
theorem C1_progressive_search_pass_bound (fetch : String → List ReferenceRecord)
    (ucs : String) (T : Nat) :
    (progressive_search fetch ucs T).2.2.length ≤ (split_ucs (cleanUcs ucs)).length + 1
  ∧ (progressive_search fetch ucs T).2.2.head? = some (cleanUcs ucs, 0)
  ∧ (∀ q c, (q, c) ∈ (progressive_search fetch ucs T).2.2.tail →
      c < T ∧ ∃ i, i < (split_ucs (cleanUcs ucs)).length ∧
        q = " AND ".intercalate
          ((split_ucs (cleanUcs ucs)).take i ++ (split_ucs (cleanUcs ucs)).drop (i + 1))) := by
  simp only [progressive_search]
  split
  · refine ⟨by simp, rfl, ?_⟩
    intro q c h
    simp at h
  · split
    · refine ⟨by simp, rfl, ?_⟩
      intro q c h
      simp at h
    · refine ⟨?_, rfl, ?_⟩
      · have h := ablationLoop_trace_length fetch (split_ucs (cleanUcs ucs)) T
          (List.range (split_ucs (cleanUcs ucs)).length)
          (addUnique [] [] (fetch (cleanUcs ucs))).1
          (addUnique [] [] (fetch (cleanUcs ucs))).2 (cleanUcs ucs)
        simp only [List.length_cons, List.length_range] at h ⊢
        omega
      · intro q c hmem
        exact ablationLoop_trace_mem fetch _ T _ _ _ _
          (fun i hi => List.mem_range.mp hi) q c hmem

/-- C1 witness: with providers that always return nothing and the query
`"a AND b"` (two clauses), at most three passes are issued, and the
concrete second pass `("b", 0)` was issued below target with clause 0
removed. -/
theorem C1_progressive_search_pass_bound_witness :
    (progressive_search emptyFetch "a AND b" 5).2.2.length ≤
      (split_ucs (cleanUcs "a AND b")).length + 1
  ∧ ((0 : Nat) < 5 ∧ ∃ i, i < (split_ucs (cleanUcs "a AND b")).length ∧
      "b" = " AND ".intercalate
        ((split_ucs (cleanUcs "a AND b")).take i ++ (split_ucs (cleanUcs "a AND b")).drop (i + 1))) := by
  refine ⟨(C1_progressive_search_pass_bound emptyFetch "a AND b" 5).1, ?_⟩
  exact (C1_progressive_search_pass_bound emptyFetch "a AND b" 5).2.2 "b" 0 (by decide)

/-! ## Claim C10 -/

/-- C10: the query searched in the very first pass is the input with
surrounding whitespace stripped and then all leading/trailing double-quote
characters stripped (`cleanUcs`), and when no ablation pass adds any new
record the reported final query is that cleaned string; concretely, a
fully quoted query and a query that merely begins and ends with quoted
phrases both lose their outer quote characters. -/
theorem C10_progressive_search_strips_quotes (fetch : String → List ReferenceRecord)
    (ucs : String) (T : Nat) :
    ((progressive_search fetch ucs T).2.2.map Prod.fst).head? = some (cleanUcs ucs)
  ∧ ((progressive_search fetch ucs T).2.1.length =
        (addUnique [] [] (fetch (cleanUcs ucs))).2.length →
      (progressive_search fetch ucs T).1 = cleanUcs ucs)
  ∧ cleanUcs "\"wearable sensor AND gait\"" = "wearable sensor AND gait"
  ∧ cleanUcs " \"sensor\" AND \"gait\" " = "sensor\" AND \"gait" := by
  refine ⟨?_, ?_, by decide, by decide⟩
  · simp only [progressive_search]
    split
    · rfl
    · split
      · rfl
      · rfl
  · simp only [progressive_search]
    split
    · intro _; rfl
    · split
      · intro _; rfl
      · intro h
        exact ablationLoop_final_query_stable fetch _ T _ _ _ _ h

/-- C10 witness: a fully quoted two-clause query with empty providers is
searched and reported without its outer quotes. -/
theorem C10_progressive_search_strips_quotes_witness :
    (progressive_search emptyFetch "\"a AND b\"" 5).1 = cleanUcs "\"a AND b\""
  ∧ cleanUcs "\"a AND b\"" = "a AND b" :=
  ⟨(C10_progressive_search_strips_quotes emptyFetch "\"a AND b\"" 5).2.1 (by decide),
    by decide⟩

/-! ## Claim C8 -/

/-- C8: a provider whose every attempt fails yields `none` from the page
fetcher (modelled `Option`, never an exception), failed providers
contribute nothing to the combined fan-out result, and with every provider
empty on every pass `progressive_search` returns normally with an empty
record list and the cleaned query. -/
theorem C8_provider_failures_absorbed :
    (∀ (resp : Nat → HttpOutcome), (∀ k b, resp k ≠ .success b) →
        fetch_page resp = none)
  ∧ (∀ e1 e2 e3 : String,
        search_all_sources (.error e1) (.error e2) (.error e3) = [])
  ∧ (∀ (ucs : String) (T : Nat),
        (progressive_search emptyFetch ucs T).2.1 = []
      ∧ (progressive_search emptyFetch ucs T).1 = cleanUcs ucs) := by
  refine ⟨?_, ?_, ?_⟩
  · intro resp hfail
    have hgo : ∀ fuel attempt, fetchPageGo resp attempt fuel = none := by
      intro fuel
      induction fuel with
      | zero => intro attempt; rfl
      | succ fuel ih =>
          intro attempt
          cases hres : resp attempt with
          | success b => exact absurd hres (hfail attempt b)
          | rateLimited => simp [fetchPageGo, hres, ih]
          | otherStatus code => simp [fetchPageGo, hres]
          | transportError =>
              simp only [fetchPageGo, hres]
              split
              · rfl
              · exact ih (attempt + 1)
    exact hgo MAX_RETRIES 0
  · intro e1 e2 e3; rfl
  · intro ucs T
    have h := ablationLoop_emptyFetch (split_ucs (cleanUcs ucs)) T
      (List.range (split_ucs (cleanUcs ucs)).length)
      (addUnique [] [] (emptyFetch (cleanUcs ucs))).1
      (addUnique [] [] (emptyFetch (cleanUcs ucs))).2 (cleanUcs ucs)
    simp only [progressive_search]
    split
    · exact ⟨rfl, rfl⟩
    · split
      · exact ⟨rfl, rfl⟩
      · exact ⟨h.2, h.1⟩

/-- C8 witness: a provider with a transport error on every attempt returns
`None`; three failing providers combine to an empty result; the
orchestrator returns an empty record list on an all-empty environment. -/
theorem C8_provider_failures_absorbed_witness :
    fetch_page (fun _ => HttpOutcome.transportError) = none
  ∧ search_all_sources (.error "timeout") (.error "HTTP 500") (.error "rate limit") = []
  ∧ (progressive_search emptyFetch "a AND b" 3).2.1 = [] :=
  ⟨C8_provider_failures_absorbed.1 (fun _ => HttpOutcome.transportError)
      (fun _ _ h => HttpOutcome.noConfusion h),
    C8_provider_failures_absorbed.2.1 "timeout" "HTTP 500" "rate limit",
    (C8_provider_failures_absorbed.2.2 "a AND b" 3).1⟩

/-! ## Claim C4 -/

/-- C4: when the ETag-guarded claim update fails with a version-conflict
error, every stage returns HTTP 200 with no ledger writes and does not run
the stage logic — the conflict is "another worker already claimed it", not
an error.  (When the stage's status precondition already fails, the same
200 no-op response is returned before any update is attempted.) -/
theorem C4_version_conflict_is_benign (now m status : String)
    (h : isVersionConflictMsg m = true) :
    run_novelty_claim now status (.error m) = .respond 200 []
  ∧ run_idca_claim now status (.error m) = .respond 200 []
  ∧ run_aa_claim now status (.error m) = .respond 200 [] := by
  refine ⟨?_, ?_, ?_⟩
  · unfold run_novelty_claim
    split
    · rfl
    · simp [h]
  · unfold run_idca_claim
    split
    · rfl
    · simp [h]
  · unfold run_aa_claim
    split
    · rfl
    · simp [h]

/-- C4 witness: a concrete `ConditionNotMet` claim error at the matching
stage preconditions yields a 200 no-op in all three stages. -/
theorem C4_version_conflict_is_benign_witness :
    run_novelty_claim "t" "classified" (.error "ConditionNotMet") = .respond 200 []
  ∧ run_idca_claim "t" "queued" (.error "UpdateConditionNotSatisfied") = .respond 200 []
  ∧ run_aa_claim "t" "assessed" (.error "ConditionNotMet") = .respond 200 [] :=
  ⟨(C4_version_conflict_is_benign "t" "ConditionNotMet" "classified" (by decide)).1,
    (C4_version_conflict_is_benign "t" "UpdateConditionNotSatisfied" "queued" (by decide)).2.1,
    (C4_version_conflict_is_benign "t" "ConditionNotMet" "assessed" (by decide)).2.2⟩

/-! ## Claim C5 -/

/-- C5 counterexample: the claim — a non-version-mismatch claim failure is
surfaced as a stage failure and the stage logic does not run — is false for
the IDCA and AA stages: on an error whose text contains neither conflict
marker they log and proceed to run the stage logic (and, absent a later
exception, report success). -/
theorem C5_other_claim_error_cex :
    isVersionConflictMsg "Connection reset by peer" = false
  ∧ run_idca_claim "t" "queued" (.error "Connection reset by peer") = .proceed []
  ∧ run_aa_claim "t" "assessed" (.error "Connection reset by peer") = .proceed [] := by
  decide

/-- C5 (corrected): only the NAA stage surfaces a non-version-mismatch
claim failure as a stage failure (HTTP 500, no stage logic); the IDCA and
AA stages log such a failure and proceed to run their stage logic anyway. -/
theorem C5_other_claim_error_behavior (now m status : String)
    (h : isVersionConflictMsg m = false) :
    (statusLower status = "classified" →
        run_novelty_claim now status (.error m) = .respond 500 [])
  ∧ (["classifying", "classified", "completed", "failed"].contains (statusLower status) = false →
        run_idca_claim now status (.error m) = .proceed [])
  ∧ (statusLower status = "assessed" →
        run_aa_claim now status (.error m) = .proceed []) := by
  refine ⟨?_, ?_, ?_⟩
  · intro hg
    simp [run_novelty_claim, hg, h]
  · intro hg
    simp at hg
    simp [run_idca_claim, h, hg]
  · intro hg
    simp [run_aa_claim, hg, h]

/-- C5 witness: the corrected behavior at concrete inputs, including a
mixed-case status that the `.lower()` normalisation accepts. -/
theorem C5_other_claim_error_behavior_witness :
    run_novelty_claim "t" "Classified" (.error "boom") = .respond 500 []
  ∧ run_idca_claim "t" "uploaded" (.error "boom") = .proceed []
  ∧ run_aa_claim "t" "Assessed" (.error "boom") = .proceed [] :=
  ⟨(C5_other_claim_error_behavior "t" "boom" "Classified" (by decide)).1 (by decide),
    (C5_other_claim_error_behavior "t" "boom" "uploaded" (by decide)).2.1 (by decide),
    (C5_other_claim_error_behavior "t" "boom" "Assessed" (by decide)).2.2 (by decide)⟩

/-! ## Retry executor lemmas -/

theorem retryGo_delay {E A : Type} (op : Nat → Except E A) (j : Nat → ℚ) (maxA : Nat) :
    ∀ (fuel attempt : Nat) (i : Nat),
      (retryGo op j maxA attempt fuel).1.get? i = none ∨
      (retryGo op j maxA attempt fuel).1.get? i = some (2 ^ (attempt + i) + j (attempt + i)) := by
  intro fuel
  induction fuel with
  | zero =>
      intro attempt i
      left
      rfl
  | succ fuel ih =>
      intro attempt i
      cases hop : op attempt with
      | ok a =>
          left
          simp [retryGo, hop]
      | error e =>
          simp only [retryGo, hop]
          by_cases hlt : attempt < maxA
          · simp only [hlt, if_true]
            cases i with
            | zero =>
                right
                simp
            | succ i =>
                have hadd : attempt + 1 + i = attempt + (i + 1) := by omega
                rcases ih (attempt + 1) i with hcase | hcase
                · left
                  simpa using hcase
                · right
                  rw [hadd] at hcase
                  simpa using hcase
          · left
            simp [hlt]

theorem retryGo_first_success {E A : Type} (op : Nat → Except E A) (j : Nat → ℚ)
    (maxA : Nat) :
    ∀ (fuel attempt : Nat) (a : A) (k : Nat),
      attempt + fuel = maxA + 1 → attempt ≤ k → k ≤ maxA → op k = .ok a →
      (∀ m, attempt ≤ m → m < k → ∃ e, op m = .error e) →
      (retryGo op j maxA attempt fuel).2 = some (.ok a) := by
  intro fuel
  induction fuel with
  | zero =>
      intro attempt a k hfl hak hkm _ _
      omega
  | succ fuel ih =>
      intro attempt a k hfl hak hkm hok hfail
      simp only [retryGo]
      by_cases heq : attempt = k
      · rw [heq, hok]
      · obtain ⟨e, he⟩ := hfail attempt le_rfl (lt_of_le_of_ne hak heq)
        rw [he]
        have hlt : attempt < maxA := by omega
        simp only [hlt, if_true]
        exact ih (attempt + 1) a k (by omega) (by omega) hkm hok
          (fun m h1 h2 => hfail m (by omega) h2)

theorem retryGo_all_fail {E A : Type} (op : Nat → Except E A) (j : Nat → ℚ)
    (maxA : Nat) :
    ∀ (fuel attempt : Nat) (e : E),
      attempt + fuel = maxA + 1 → attempt ≤ maxA →
      (∀ m, attempt ≤ m → m ≤ maxA → ∃ e', op m = .error e') → op maxA = .error e →
      (retryGo op j maxA attempt fuel).2 = some (.error e) := by
  intro fuel
  induction fuel with
  | zero =>
      intro attempt e hfl ham _ _
      omega
  | succ fuel ih =>
      intro attempt e hfl ham hfail hlast
      simp only [retryGo]
      obtain ⟨e', he'⟩ := hfail attempt le_rfl ham
      rw [he']
      by_cases hlt : attempt < maxA
      · simp only [hlt, if_true]
        exact ih (attempt + 1) e (by omega) (by omega)
          (fun m h1 h2 => hfail m (by omega) h2) hlast
      · have : attempt = maxA := by omega
        rw [this] at he'
        rw [hlast] at he'
        obtain rfl : e = e' := by
          injection he'
        simp [hlt]

/-! ## Claim C6 -/

/-- C6: the bounded retry executor returns the result of the first
successful attempt; if every attempt up to the ceiling fails it re-raises
the exception of the last attempt verbatim; and the sleep before re-running
attempt `k + 1` is exactly `2 ^ k` plus the jitter drawn after attempt `k`
(the jitter oracle `j` models `random.uniform(0, 1)`). -/
theorem C6_retry_agent_contract {E A : Type} (op : Nat → Except E A) (j : Nat → ℚ)
    (maxA : Nat) (hmax : 1 ≤ maxA) :
    (∀ (a : A) (k : Nat), 1 ≤ k → k ≤ maxA → op k = .ok a →
        (∀ m, 1 ≤ m → m < k → ∃ e, op m = .error e) →
        (retry_agent op j maxA).2 = some (.ok a))
  ∧ (∀ e : E, (∀ m, 1 ≤ m → m ≤ maxA → ∃ e', op m = .error e') → op maxA = .error e →
        (retry_agent op j maxA).2 = some (.error e))
  ∧ (∀ (i : Nat) (h : i < (retry_agent op j maxA).1.length),
        (retry_agent op j maxA).1.get ⟨i, h⟩ = 2 ^ (i + 1) + j (i + 1)) := by
  refine ⟨?_, ?_, ?_⟩
  · intro a k h1 h2 hok hfail
    exact retryGo_first_success op j maxA maxA 1 a k (by omega) h1 h2 hok hfail
  · intro e hfail hlast
    exact retryGo_all_fail op j maxA maxA 1 e (by omega) hmax hfail hlast
  · intro i h
    have h' : i < (retryGo op j maxA 1 maxA).1.length := h
    rcases retryGo_delay op j maxA maxA 1 i with hcase | hcase
    · rw [List.get?_eq_get h'] at hcase
      exact absurd hcase (by simp)
    · rw [List.get?_eq_get h'] at hcase
      have hv := Option.some.inj hcase
      show (retryGo op j maxA 1 maxA).1.get ⟨i, h'⟩ = _
      rw [hv, Nat.add_comm 1 i]

/-- C6 witness: an operation failing twice then succeeding returns the
third attempt's result; an always-failing operation with ceiling 3 raises
the error of attempt 3 verbatim; the first sleep is `2 ^ 1` plus jitter. -/
theorem C6_retry_agent_contract_witness :
    (retry_agent wOp wJitter 5).2 = some (.ok "done")
  ∧ (retry_agent wOpFail wJitter 3).2 = some (.error 3)
  ∧ (retry_agent wOpFail wJitter 3).1.get ⟨0, by decide⟩ = 2 ^ (0 + 1) + wJitter (0 + 1) :=
  ⟨(C6_retry_agent_contract wOp wJitter 5 (by decide)).1 "done" 3 (by decide) (by decide)
      rfl
      (fun m h1 h2 => ⟨m, by
        have hne : m ≠ 3 := by omega
        simp [wOp, hne]⟩),
    (C6_retry_agent_contract wOpFail wJitter 3 (by decide)).2.1 3
      (fun m _ _ => ⟨m, rfl⟩) rfl,
    (C6_retry_agent_contract wOpFail wJitter 3 (by decide)).2.2 0 (by decide)⟩

/-! ## Claim C7 -/

theorem utf8LenList_replicate (n : Nat) (c : Char) :
    utf8LenList (List.replicate n c) = n * c.utf8Size := by
  induction n with
  | zero => simp [utf8LenList]
  | succ n ih =>
      rw [List.replicate_succ]
      simp only [utf8LenList, ih]
      rw [Nat.succ_mul]
      omega

/-- C7 counterexample: the claim — every stage output not below 32 KiB
minus a safety margin is written to the blob store — is false for the AA
report writer, which has no margin and uses a strict `>`: a report of
exactly 32 KiB (32768 bytes, not below 32 KiB minus any margin) is stored
inline with no blob write. -/
theorem C7_overflow_policy_cex :
    utf8Len aa_report_32k = 32 * 1024
  ∧ aa_persist "r1" aa_report_32k = (⟨some aa_report_32k, none⟩, []) := by
  have hlen : utf8Len aa_report_32k = 32 * 1024 := by
    show utf8LenList (List.replicate (32 * 1024) 'a') = 32 * 1024
    rw [utf8LenList_replicate]
    rfl
  refine ⟨hlen, ?_⟩
  rw [aa_persist, hlen]
  simp

/-- C7 (corrected): the NAA writer stores its output inline iff its length
is at most `32 * 1024 - 256` characters, otherwise it writes the blob
`naa-outputs/{id}.json` and stores only that key; the AA writer stores the
report inline iff its UTF-8 byte length is at most `32 * 1024` (no safety
margin), otherwise it writes the blob `aa-outputs/{id}.md` and stores only
that key; and the NAA-output reader consults the blob-pointer field first
and falls back to the inline field only when no pointer is present, so a
persisted output always reads back. -/
theorem C7_overflow_policy (request_id s : String) :
    (s.length ≤ max_table_chars →
        naa_persist request_id s = (⟨"assessed", some s, none⟩, []))
  ∧ (max_table_chars < s.length →
        naa_persist request_id s =
          (⟨"assessed", none, some ("naa-outputs/" ++ request_id ++ ".json")⟩,
            [⟨"naa-outputs/" ++ request_id ++ ".json", s⟩]))
  ∧ (utf8Len s ≤ 32 * 1024 →
        aa_persist request_id s = (⟨some s, none⟩, []))
  ∧ (32 * 1024 < utf8Len s →
        aa_persist request_id s =
          (⟨none, some ("aa-outputs/" ++ request_id ++ ".md")⟩,
            [⟨"aa-outputs/" ++ request_id ++ ".md", s⟩]))
  ∧ (∀ (naa_output : Option String) (p : String) (blobGet : String → String),
        get_naa_output_str naa_output (some p) blobGet = blobGet p)
  ∧ (∀ (blobGet : String → String) (t : String), t.isEmpty = false →
        get_naa_output_str (some t) none blobGet = t)
  ∧ (s.isEmpty = false →
        get_naa_output_str (naa_persist request_id s).1.naa_output
          (naa_persist request_id s).1.naa_output_blob
          (fun k => if k = "naa-outputs/" ++ request_id ++ ".json" then s else "") = s) := by
  refine ⟨?_, ?_, ?_, ?_, ?_, ?_, ?_⟩
  · intro h
    rw [naa_persist, if_neg (by omega)]
  · intro h
    rw [naa_persist, if_pos h]
  · intro h
    rw [aa_persist, if_neg (by omega)]
  · intro h
    rw [aa_persist, if_pos h]
  · intro naa_output p blobGet
    rfl
  · intro blobGet t ht
    simp [get_naa_output_str, ht]
  · intro hne
    rw [naa_persist]
    by_cases h : max_table_chars < s.length
    · rw [if_pos h]
      simp [get_naa_output_str]
    · rw [if_neg h]
      simp [get_naa_output_str, hne]

/-- C7 witness: a small NAA output is stored inline and reads back; a
32 KiB NAA output exceeds `max_table_chars` and goes to the blob under its
deterministic key; the reader prefers the blob pointer. -/
theorem C7_overflow_policy_witness :
    naa_persist "r2" "small" = (⟨"assessed", some "small", none⟩, [])
  ∧ naa_persist "r3" naa_big =
      (⟨"assessed", none, some ("naa-outputs/" ++ "r3" ++ ".json")⟩,
        [⟨"naa-outputs/" ++ "r3" ++ ".json", naa_big⟩])
  ∧ get_naa_output_str (some "inline") (some "naa-outputs/r2.json")
      (fun k => if k = "naa-outputs/r2.json" then "blob" else "") = "blob"
  ∧ get_naa_output_str (naa_persist "r2" "small").1.naa_output
      (naa_persist "r2" "small").1.naa_output_blob
      (fun k => if k = "naa-outputs/" ++ "r2" ++ ".json" then "small" else "") = "small" := by
  have hbig : max_table_chars < naa_big.length := by
    show max_table_chars < (List.replicate (32 * 1024) 'b').length
    rw [List.length_replicate]
    decide
  exact ⟨(C7_overflow_policy "r2" "small").1 (by decide),
    (C7_overflow_policy "r3" naa_big).2.1 hbig,
    (C7_overflow_policy "r2" "ignored").2.2.2.2.1 (some "inline") "naa-outputs/r2.json"
      (fun k => if k = "naa-outputs/r2.json" then "blob" else ""),
    (C7_overflow_policy "r2" "small").2.2.2.2.2.2 (by decide)⟩

/-! ## Claim C9 -/

/-- C9 counterexample: the claim — every status written lies in the closed
set and the status never regresses except to `failed`/`deleted` — is false:
`upload` writes `enqueue_failed` and `retry_request` writes `retrying`,
neither in the set (and `retrying` regardless of the previous status), and
the IDCA claim regresses an `analyzing` item back to `classifying`. -/
theorem C9_status_set_cex :
    upload_status_writes false = ["uploaded", "enqueue_failed"]
  ∧ "enqueue_failed" ∉ allowed_statuses
  ∧ retry_request_status_writes = ["retrying"]
  ∧ "retrying" ∉ allowed_statuses
  ∧ run_idca_claim "t" "analyzing" (.ok ()) =
      .proceed [("status", "classifying"), ("classifying_started_at", "t")] := by
  decide

theorem mem_extended_of_core (st : String)
    (h : st = "analyzing" ∨ st = "assessed" ∨ st = "failed" ∨ st = "completed"
      ∨ st = "classifying") :
    st ∈ extended_statuses := by
  rcases h with rfl | rfl | rfl | rfl | rfl <;> decide

/-- C9 (corrected): every status value any handler writes lies in the
closed set extended with `enqueue_failed` and `retrying`; the guarded NAA
and AA stages advance only from their preconditions (`analyzing` only from
`classified`, `completed` only from `assessed`), while the IDCA claim
writes `classifying` exactly when the current status is outside its skip
set (so it can regress e.g. `analyzing`), and the retry endpoint
unconditionally writes `retrying`. -/
theorem C9_status_vocabulary (enqueueOk noInvention stageOk aaOk : Bool)
    (status now : String) (upd : Except String Unit) :
    (∀ st ∈ upload_status_writes enqueueOk, st ∈ extended_statuses)
  ∧ (∀ st ∈ delete_request_status_writes, st ∈ extended_statuses)
  ∧ (∀ st ∈ retry_request_status_writes, st ∈ extended_statuses)
  ∧ (∀ st ∈ start_assessment_status_writes status, st ∈ extended_statuses)
  ∧ (∀ st ∈ idca_run_status_writes noInvention, st ∈ extended_statuses)
  ∧ (∀ st ∈ naa_run_status_writes status upd stageOk aaOk, st ∈ extended_statuses)
  ∧ (∀ st ∈ aa_run_status_writes status upd stageOk, st ∈ extended_statuses)
  ∧ (∀ st ∈ statusWritesOf (run_idca_claim now status upd), st ∈ extended_statuses)
  ∧ (∀ ws, run_novelty_claim now status upd = .proceed ws →
        statusLower status = "classified")
  ∧ ("analyzing" ∈ start_assessment_status_writes status → status = "classified")
  ∧ (∀ ws, run_aa_claim now status upd = .proceed ws → statusLower status = "assessed")
  ∧ (∀ ws, run_idca_claim now status upd = .proceed ws →
        (["classifying", "classified", "completed", "failed"].contains
          (statusLower status)) = false) := by
  refine ⟨?_, ?_, ?_, ?_, ?_, ?_, ?_, ?_, ?_, ?_, ?_, ?_⟩
  · intro st hst
    cases enqueueOk <;> simp [upload_status_writes] at hst <;>
      rcases hst with rfl | rfl <;> decide
  · intro st hst
    simp [delete_request_status_writes] at hst
    subst hst
    decide
  · intro st hst
    simp [retry_request_status_writes] at hst
    subst hst
    decide
  · intro st hst
    rw [start_assessment_status_writes] at hst
    split at hst
    · simp at hst
      subst hst
      decide
    · simp at hst
  · intro st hst
    cases noInvention
    · simp [idca_run_status_writes] at hst
      rcases hst with rfl | rfl <;> decide
    · simp [idca_run_status_writes] at hst
      rcases hst with rfl | rfl | rfl <;> decide
  · intro st hst
    unfold naa_run_status_writes run_novelty_claim at hst
    split at hst
    · simp [statusWritesOf] at hst
    · cases upd with
      | ok u =>
          dsimp only [statusWritesOf] at hst
          cases stageOk <;> cases aaOk <;> simp at hst <;>
            exact mem_extended_of_core st (by tauto)
      | error m =>
          dsimp only at hst
          split at hst <;> simp [statusWritesOf] at hst
  · intro st hst
    unfold aa_run_status_writes run_aa_claim at hst
    split at hst
    · simp [statusWritesOf] at hst
    · cases upd with
      | ok u =>
          dsimp only [statusWritesOf] at hst
          cases stageOk <;> simp at hst
          exact mem_extended_of_core st (by tauto)
      | error m =>
          dsimp only at hst
          split at hst
          · simp [statusWritesOf] at hst
          · dsimp only [statusWritesOf] at hst
            cases stageOk <;> simp at hst
            exact mem_extended_of_core st (by tauto)
  · intro st hst
    unfold run_idca_claim at hst
    split at hst
    · simp [statusWritesOf] at hst
    · cases upd with
      | ok u =>
          simp [statusWritesOf] at hst
          exact mem_extended_of_core st (by tauto)
      | error m =>
          dsimp only at hst
          split at hst <;> simp [statusWritesOf] at hst
  · intro ws h
    by_cases hg : statusLower status = "classified"
    · exact hg
    · unfold run_novelty_claim at h
      rw [if_pos hg] at h
      exact ClaimResult.noConfusion h
  · intro h
    rw [start_assessment_status_writes] at h
    split at h
    · assumption
    · simp at h
  · intro ws h
    by_cases hg : statusLower status = "assessed"
    · exact hg
    · unfold run_aa_claim at h
      rw [if_pos hg] at h
      exact ClaimResult.noConfusion h
  · intro ws h
    by_cases hg : (["classifying", "classified", "completed", "failed"].contains
        (statusLower status)) = true
    · unfold run_idca_claim at h
      rw [if_pos hg] at h
      exact ClaimResult.noConfusion h
    · simpa using hg

/-- C9 witness: concrete write sets lie in the extended vocabulary, and the
guarded claims advance only from their preconditions. -/
theorem C9_status_vocabulary_witness :
    "queued" ∈ extended_statuses
  ∧ "retrying" ∈ extended_statuses
  ∧ statusLower "Classified" = "classified"
  ∧ statusLower "assessed" = "assessed" :=
  ⟨(C9_status_vocabulary true false true true "classified" "t" (.ok ())).1
      "queued" (by decide),
    (C9_status_vocabulary true false true true "classified" "t" (.ok ())).2.2.1
      "retrying" (by decide),
    (C9_status_vocabulary true false true true "Classified" "t" (.ok ())).2.2.2.2.2.2.2.2.1
      [("status", "analyzing"), ("naa_started_at", "t")] (by decide),
    (C9_status_vocabulary true false true true "assessed" "t" (.ok ())).2.2.2.2.2.2.2.2.2.2.1
      [("aa_started_at", "t")] (by decide)⟩

end AmieAzure
